import Mathlib

/-!
# Verification of the soil-server device fleet manager

A shallow embedding of `src/main.py` (and the relevant boundary of
`src/bluetoothctl.py`) together with proofs about the embedded code.

Conventions used throughout:
* Byte strings (`bytes`) are `List ℕ` of byte values; decoded text (`str`)
  is `List ℕ` of Unicode code points.
* Wall-clock instants (`datetime.datetime`) and durations
  (`datetime.timedelta`) are integers in microseconds, so
  `timedelta(milliseconds=m)` is `1000 * m`.  `datetime` arithmetic is
  exact, so ℤ is a faithful carrier.
* Python exceptions are `Option`/`Except` failures.
* Python dictionaries are modelled as partial maps or association lists;
  insertion order is never observed by the properties at stake.
-/

/-! ## StreamFramer: `Device.append_socket_data`

`append_socket_data` does
  `self.buffer += new_data`
  `*new_lines, self.buffer = self.buffer.split(b'\r\n')`
  `return list(map(bytes.decode, new_lines))`

`splitCRLF` models `bytes.split(b'\r\n')`: it scans left to right and cuts
at every (non-overlapping, leftmost-first) occurrence of the two-byte
delimiter `13, 10`. -/

def consHead (b : ℕ) : List (List ℕ) → List (List ℕ)
  | [] => [[b]]
  | l :: ls => (b :: l) :: ls

def splitCRLF : List ℕ → List (List ℕ)
  | [] => [[]]
  | [b] => [[b]]
  | b :: c :: rest =>
    if b = 13 ∧ c = 10 then [] :: splitCRLF rest
    else consHead b (splitCRLF (c :: rest))

/-! ## `bytes.decode`: strict UTF-8 decoding

`utf8Decode` models Python's `bytes.decode()` (strict UTF-8): it rejects
stray continuation bytes, overlong encodings, surrogates and code points
above U+10FFFF, and returns the list of decoded code points.  `none` models
the raised `UnicodeDecodeError`. -/

def utf8Cont (b : ℕ) : Prop := 128 ≤ b ∧ b < 192

instance (b : ℕ) : Decidable (utf8Cont b) := by unfold utf8Cont; infer_instance

def utf8Decode : List ℕ → Option (List ℕ)
  | [] => some []
  | b0 :: rest =>
    if b0 < 128 then (utf8Decode rest).map (b0 :: ·)
    else if b0 < 194 then none
    else if b0 < 224 then
      match rest with
      | b1 :: rest2 =>
        if utf8Cont b1 then
          (utf8Decode rest2).map (((b0 - 192) * 64 + (b1 - 128)) :: ·)
        else none
      | [] => none
    else if b0 < 240 then
      match rest with
      | b1 :: b2 :: rest2 =>
        if utf8Cont b1 ∧ utf8Cont b2 ∧ (b0 = 224 → 160 ≤ b1) ∧ (b0 = 237 → b1 < 160) then
          (utf8Decode rest2).map
            (((b0 - 224) * 4096 + (b1 - 128) * 64 + (b2 - 128)) :: ·)
        else none
      | _ => none
    else if b0 < 245 then
      match rest with
      | b1 :: b2 :: b3 :: rest2 =>
        if utf8Cont b1 ∧ utf8Cont b2 ∧ utf8Cont b3 ∧
            (b0 = 240 → 144 ≤ b1) ∧ (b0 = 244 → b1 < 144) then
          (utf8Decode rest2).map
            (((b0 - 240) * 262144 + (b1 - 128) * 4096 + (b2 - 128) * 64 + (b3 - 128)) :: ·)
        else none
      | _ => none
    else none

/-- Model of `Device.append_socket_data(new_data)` as a function of the current
buffer: the new buffer is always the bytes after the last delimiter (the
Python assignment happens before the decode), and the first component is the
decoded completed lines, `none` when `bytes.decode` raises on some fragment
(`list(map(bytes.decode, new_lines))` evaluates decodes in order and the
first failure propagates out of the method). -/
def append_socket_data (buffer new_data : List ℕ) :
    Option (List (List ℕ)) × List ℕ :=
  let parts := splitCRLF (buffer ++ new_data)
  (parts.dropLast.mapM utf8Decode, parts.getLastD [])

/-- Feeding a sequence of chunks through successive `append_socket_data`
calls, accumulating the returned lines.  `none` models the
`UnicodeDecodeError` escaping some call (later calls never happen). -/
def runFramer (buffer : List ℕ) : List (List ℕ) → Option (List (List ℕ) × List ℕ)
  | [] => some ([], buffer)
  | c :: cs =>
    match append_socket_data buffer c with
    | (none, _) => none
    | (some ls, buffer2) =>
      match runFramer buffer2 cs with
      | none => none
      | some (ls2, buffer3) => some (ls ++ ls2, buffer3)

/-! ## JSON values (`json.loads` results)

JSON numbers are modelled as integers only: every numeric payload the
protocol carries (`controller_id`, `millis`, ids, moisture) is an integer,
and no claim exercises fractional or exponent literals. -/

inductive Json where
  | num (n : Int)
  | str (s : List ℕ)
  | bool (b : Bool)
  | null
  | arr (xs : List Json)
  | obj (kvs : List (List ℕ × Json))

mutual

def Json.beq : Json → Json → Bool
  | .num a, .num b => a == b
  | .str a, .str b => a == b
  | .bool a, .bool b => a == b
  | .null, .null => true
  | .arr xs, .arr ys => Json.beqArr xs ys
  | .obj xs, .obj ys => Json.beqObj xs ys
  | _, _ => false

def Json.beqArr : List Json → List Json → Bool
  | [], [] => true
  | x :: xs, y :: ys => Json.beq x y && Json.beqArr xs ys
  | _, _ => false

def Json.beqObj : List (List ℕ × Json) → List (List ℕ × Json) → Bool
  | [], [] => true
  | (k1, v1) :: xs, (k2, v2) :: ys => k1 == k2 && Json.beq v1 v2 && Json.beqObj xs ys
  | _, _ => false

end

/-- Python `dict` built by `json.loads` from an object literal: a later
duplicate key overrides an earlier one, so lookup returns the last match. -/
def lookupLast : List (List ℕ × Json) → List ℕ → Option Json
  | [], _ => none
  | (k', v) :: rest, k =>
    match lookupLast rest k with
    | some r => some r
    | none => if k' = k then some v else none

/-- Lookup `data[key]` on a decoded JSON value (`KeyError`/`TypeError` is `none`). -/
def Json.getKey : Json → List ℕ → Option Json
  | .obj kvs, k => lookupLast kvs k
  | _, _ => none

/-- The integer value of a JSON number, as accepted by
`timedelta(milliseconds=...)`; Python `bool` is an `int` subtype. -/
def Json.asInt : Json → Option Int
  | .num n => some n
  | .bool b => some (if b then 1 else 0)
  | _ => none

def Json.asArr : Json → Option (List Json)
  | .arr xs => some xs
  | _ => none

/-! ## ClockReconciler: `DeviceServer.get_device_best_startup_estimate`

`self.devices_best_startup_estimates` is a dict keyed by the raw
`data['controller_id']` JSON value; it is modelled as an association list
with Python `dict` semantics (`estGet`/`estSet`). -/

def EstMap : Type := List (Json × Int)

def estGet : EstMap → Json → Option Int
  | [], _ => none
  | (k', v) :: rest, k => if Json.beq k' k then some v else estGet rest k

def estSet : EstMap → Json → Int → EstMap
  | [], k, v => [(k, v)]
  | (k', v') :: rest, k, v =>
    if Json.beq k' k then (k', v) :: rest else (k', v') :: estSet rest k v

/-- Model of `DeviceServer.get_device_best_startup_estimate`:
`setdefault(controller_id, estimate)`, then store
`min(current, estimate)`, then return the stored value. -/
def get_device_best_startup_estimate (m : EstMap) (controller_id : Json)
    (device_startup_estimate : Int) : Int × EstMap :=
  match estGet m controller_id with
  | none =>
    (device_startup_estimate, estSet m controller_id device_startup_estimate)
  | some current =>
    (min current device_startup_estimate,
     estSet m controller_id (min current device_startup_estimate))

/-- The clock-reconciliation step of `parse_device_line` (lines 118–123):
`candidate = received_at − uptime`, update the per-controller running
minimum, and return `best + uptime` as `taken_at` together with the updated
estimates dict. -/
def reconcile (m : EstMap) (controller_id : Json) (received_at uptime : Int) :
    Int × EstMap :=
  let device_startup_estimate := received_at - uptime
  let r := get_device_best_startup_estimate m controller_id device_startup_estimate
  (r.1 + uptime, r.2)

/-- Feeding a sequence of `(received_at, uptime)` samples for one controller. -/
def runReconcile (m : EstMap) (controller_id : Json) (samples : List (Int × Int)) :
    EstMap :=
  samples.foldl (fun m s => (reconcile m controller_id s.1 s.2).2) m

/-- The effect of one update on the stored estimate, seen through `estGet`. -/
def estStep (o : Option Int) (c : Int) : Int :=
  match o with
  | none => c
  | some v => min v c

def optStep (o : Option Int) (c : Int) : Option Int := some (estStep o c)

instance : RightCommutative optStep := by
  constructor
  intro o a b
  cases o <;> simp [optStep, estStep]
  · exact min_comm a b
  · omega

/-! ## Envelope parser: `RE_PARSE_LINE = re.compile(r'^\[(\d+)\[(.*)]\1]$')`

The regex is anchored; `(\d+)` is greedy and must be followed by `[`, so it
always captures the maximal digit run (backtracking it would put a digit
where `[` is required).  `(.*)` with the anchored `]\1]$` suffix forces the
payload to be everything strictly between the second `[` and the trailing
`]<id>]`.  Two Python `re` subtleties are modelled: `$` also matches just
before one trailing `'\n'`, and `.` does not match `'\n'`.  (`\d` is
modelled on the ASCII digits; no claim exercises non-ASCII digits.) -/

def isDigit (c : ℕ) : Bool := 48 ≤ c && c ≤ 57

/-- In Python `re`, `$` matches at the end of the string or just before a
single trailing newline. -/
def stripFinalNewline (line : List ℕ) : List ℕ :=
  if line.getLast? = some 10 then line.dropLast else line

/-- Model of `RE_PARSE_LINE.match(line)`: `some (id_digits, payload)` on success.
The suffix `93 :: (ds ++ [93])` is the mandatory `]<id>]` tail; the payload
is everything between the second `[` and that tail. -/
def parseEnvelope (line : List ℕ) : Option (List ℕ × List ℕ) :=
  match stripFinalNewline line with
  | b :: rest =>
    if b = 91 then
      match rest.takeWhile (fun c => isDigit c),
          rest.dropWhile (fun c => isDigit c) with
      | [], _ => none
      | ds, c :: rest3 =>
        if c = 91 then
          if (93 :: (ds ++ [93])).length ≤ rest3.length ∧
              rest3.drop (rest3.length - (93 :: (ds ++ [93])).length) =
                93 :: (ds ++ [93]) then
            if (rest3.take (rest3.length -
                (93 :: (ds ++ [93])).length)).contains 10
            then none
            else some (ds, rest3.take (rest3.length -
              (93 :: (ds ++ [93])).length))
          else none
        else none
      | _, _ => none
    else none
  | [] => none

/-! ## `json.loads`

A fuel-indexed recursive-descent parser for the JSON grammar over code
points, with Python semantics: strict strings (control characters rejected,
`\uXXXX` escapes not modelled — no claim uses them), integer numbers without
leading zeros (floats not modelled — no claim uses them), duplicate object
keys resolved by `lookupLast`, and insignificant whitespace. -/

def jsonWS (c : ℕ) : Bool := c = 32 || c = 9 || c = 10 || c = 13

def skipWS (s : List ℕ) : List ℕ := s.dropWhile (fun c => jsonWS c)

def escChar : ℕ → Option ℕ
  | 34 => some 34    -- \"
  | 92 => some 92    -- backslash
  | 47 => some 47    -- \/
  | 98 => some 8     -- \b
  | 102 => some 12   -- \f
  | 110 => some 10   -- \n
  | 114 => some 13   -- \r
  | 116 => some 9    -- \t
  | _ => none

/-- A JSON string body after the opening quote; returns the decoded
characters and the input after the closing quote. -/
def parseStrBody : List ℕ → Option (List ℕ × List ℕ)
  | [] => none
  | 34 :: rest => some ([], rest)
  | 92 :: c :: rest =>
    match escChar c with
    | some e => (parseStrBody rest).map (fun r => (e :: r.1, r.2))
    | none => none
  | c :: rest =>
    if c < 32 then none
    else (parseStrBody rest).map (fun r => (c :: r.1, r.2))

/-- A JSON integer literal: optional minus, no leading zeros. -/
def parseIntLit (s : List ℕ) : Option (Int × List ℕ) :=
  let core : List ℕ → Option (ℕ × List ℕ) := fun t =>
    match t.takeWhile (fun c => isDigit c), t.dropWhile (fun c => isDigit c) with
    | [], _ => none
    | ds, rest =>
      if ds.head? = some 48 ∧ ds.length ≠ 1 then none
      else some (ds.foldl (fun a c => a * 10 + (c - 48)) 0, rest)
  match s with
  | 45 :: t => (core t).map (fun r => (-(r.1 : Int), r.2))
  | t => (core t).map (fun r => ((r.1 : Int), r.2))

mutual

def parseJsonVal : ℕ → List ℕ → Option (Json × List ℕ)
  | 0, _ => none
  | fuel + 1, s =>
    match skipWS s with
    | 34 :: rest => (parseStrBody rest).map (fun r => (Json.str r.1, r.2))
    | 91 :: rest => parseJsonArr fuel (skipWS rest)
    | 123 :: rest => parseJsonObj fuel (skipWS rest)
    | 116 :: 114 :: 117 :: 101 :: rest => some (Json.bool true, rest)
    | 102 :: 97 :: 108 :: 115 :: 101 :: rest => some (Json.bool false, rest)
    | 110 :: 117 :: 108 :: 108 :: rest => some (Json.null, rest)
    | t => (parseIntLit t).map (fun r => (Json.num r.1, r.2))

/-- The inside of an array, after `[` and leading whitespace. -/
def parseJsonArr : ℕ → List ℕ → Option (Json × List ℕ)
  | 0, _ => none
  | fuel + 1, s =>
    match s with
    | 93 :: rest => some (Json.arr [], rest)
    | t =>
      match parseJsonVal fuel t with
      | none => none
      | some (v, r) => parseJsonArrTail fuel [v] (skipWS r)

/-- After one array element: `,` and more elements, or `]`. -/
def parseJsonArrTail : ℕ → List Json → List ℕ → Option (Json × List ℕ)
  | 0, _, _ => none
  | fuel + 1, acc, s =>
    match s with
    | 93 :: rest => some (Json.arr acc.reverse, rest)
    | 44 :: rest =>
      match parseJsonVal fuel rest with
      | none => none
      | some (v, r) => parseJsonArrTail fuel (v :: acc) (skipWS r)
    | _ => none

/-- The inside of an object, after the opening brace and whitespace. -/
def parseJsonObj : ℕ → List ℕ → Option (Json × List ℕ)
  | 0, _ => none
  | fuel + 1, s =>
    match s with
    | 125 :: rest => some (Json.obj [], rest)
    | t =>
      match parseJsonMember fuel t with
      | none => none
      | some (kv, r) => parseJsonObjTail fuel [kv] (skipWS r)

/-- After one member: `,` and more members, or the closing brace. -/
def parseJsonObjTail : ℕ → List (List ℕ × Json) → List ℕ →
    Option (Json × List ℕ)
  | 0, _, _ => none
  | fuel + 1, acc, s =>
    match s with
    | 125 :: rest => some (Json.obj acc.reverse, rest)
    | 44 :: rest =>
      match parseJsonMember fuel (skipWS rest) with
      | none => none
      | some (kv, r) => parseJsonObjTail fuel (kv :: acc) (skipWS r)
    | _ => none

/-- One `"key": value` member. -/
def parseJsonMember : ℕ → List ℕ → Option ((List ℕ × Json) × List ℕ)
  | 0, _ => none
  | fuel + 1, s =>
    match s with
    | 34 :: rest =>
      match parseStrBody rest with
      | none => none
      | some (k, r) =>
        match skipWS r with
        | 58 :: r2 =>
          match parseJsonVal fuel r2 with
          | none => none
          | some (v, r3) => some ((k, v), r3)
        | _ => none
    | _ => none

end

/-- Model of `json.loads`: parse one value and insist on only whitespace after it.
The fuel `s.length + 1` dominates the recursion depth, every recursive call
follows the consumption of at least one input character. -/
def jsonLoads (s : List ℕ) : Option Json :=
  match parseJsonVal (s.length + 1) s with
  | none => none
  | some (v, r) => if skipWS r = [] then some v else none

/-! ## `DeviceServer.parse_device_line` -/

def str2cp (s : String) : List ℕ := s.data.map Char.toNat

/-- One element of the list comprehension in `parse_device_line`.
`received_at` stands for the `received_at_str` ISO rendering (the instant
itself; the string rendering is injective and not modelled). -/
structure MeasurementRecord where
  controller_id : Json
  sensor_id : Json
  bluetooth_name : List ℕ
  plant_id : Json
  moisture : Json
  received_at : Int
  taken_at : Int

/-- The three error returns of `parse_device_line` (the messages' variable
parts are elided). -/
inductive LineError where
  | couldNotMatchLine
  | couldNotParseJson
  | couldNotParseData

/-- Model of `parse_device_line(device, line, received_at)` for a given estimates
dict.  Mirrors the Python control flow: the envelope match, `json.loads`,
then inside `try`: `data['measurements']`, `data['controller_id']`,
`timedelta(milliseconds=data['millis'])` are evaluated (in that order)
before the estimates dict is mutated, and the list comprehension (which
needs `measurements` to be a list of dicts with the three keys) runs after
the mutation — so a failure inside the comprehension still leaves the
estimate updated. -/
def parse_device_line (ests : EstMap) (device_name line : List ℕ)
    (received_at : Int) : Except LineError (List MeasurementRecord) × EstMap :=
  match parseEnvelope line with
  | none => (.error .couldNotMatchLine, ests)
  | some (_, data_json) =>
    match jsonLoads data_json with
    | none => (.error .couldNotParseJson, ests)
    | some data =>
      match data.getKey (str2cp "measurements") with
      | none => (.error .couldNotParseData, ests)
      | some raw_measurements =>
        match data.getKey (str2cp "controller_id") with
        | none => (.error .couldNotParseData, ests)
        | some controller_id =>
          match (data.getKey (str2cp "millis")).bind Json.asInt with
          | none => (.error .couldNotParseData, ests)
          | some millis =>
            let time_since_startup : Int := 1000 * millis
            let device_startup_estimate := received_at - time_since_startup
            let r := get_device_best_startup_estimate ests controller_id
              device_startup_estimate
            let taken_at := r.1 + time_since_startup
            match raw_measurements.asArr with
            | none => (.error .couldNotParseData, r.2)
            | some raws =>
              match raws.mapM (fun raw => do
                  let sensor_id ← raw.getKey (str2cp "sensor_id")
                  let plant_id ← raw.getKey (str2cp "plant_id")
                  let moisture ← raw.getKey (str2cp "moisture")
                  pure (MeasurementRecord.mk controller_id sensor_id device_name
                    plant_id moisture received_at taken_at)) with
              | none => (.error .couldNotParseData, r.2)
              | some ms => (.ok ms, r.2)

/-! ## DeviceRegistry: the `Devices` class

A Python `Device` object's identity is carried by its immutable fields
`socket` (the connection handle, opaque), `address` and `name`; the mutable
`connected` flag and buffer live outside the registry (state separation for
the mutation in `receive_data`).  `self.devices` (a `set`) is a
duplicate-free list; the three index dicts are partial maps. -/

structure Device where
  socket : ℕ
  address : List ℕ
  name : List ℕ
deriving DecidableEq

structure Reg where
  devices : List Device
  by_socket : ℕ → Option Device
  by_address : List ℕ → Option Device
  by_name : List ℕ → Option (List Device)

def mset {κ α : Type} [DecidableEq κ] (m : κ → Option α) (k : κ) (v : α) :
    κ → Option α :=
  fun x => if x = k then some v else m x

def mdel {κ α : Type} [DecidableEq κ] (m : κ → Option α) (k : κ) :
    κ → Option α :=
  fun x => if x = k then none else m x

def emptyReg : Reg :=
  ⟨[], fun _ => none, fun _ => none, fun _ => none⟩

/-- Model of `Devices.add`: `set.add` plus the three index writes
(`by_name.setdefault(name, set()).add(device)`). -/
def Reg.add (reg : Reg) (d : Device) : Reg where
  devices := if reg.devices.contains d then reg.devices else reg.devices ++ [d]
  by_socket := mset reg.by_socket d.socket d
  by_address := mset reg.by_address d.address d
  by_name :=
    match reg.by_name d.name with
    | none => mset reg.by_name d.name [d]
    | some s =>
      mset reg.by_name d.name (if s.contains d then s else s ++ [d])

/-- Model of `Devices.remove`: `set.remove` and the two `del`s raise `KeyError` when
the key is absent, and `by_name[name].remove(device)` raises when the device
is not in that set; `none` models the escaping exception. -/
def Reg.remove (reg : Reg) (d : Device) : Option Reg :=
  if reg.devices.contains d then
    if (reg.by_socket d.socket).isSome then
      if (reg.by_address d.address).isSome then
        match reg.by_name d.name with
        | some s =>
          if s.contains d then
            some ⟨reg.devices.erase d, mdel reg.by_socket d.socket,
              mdel reg.by_address d.address,
              mset reg.by_name d.name (s.erase d)⟩
          else none
        | none => none
      else none
    else none
  else none

def removeMany (reg : Reg) : List Device → Option Reg
  | [] => some reg
  | d :: ds =>
    match reg.remove d with
    | none => none
    | some reg2 => removeMany reg2 ds

/-- The registry consistency invariant (spec §3): every member device is
indexed under its current socket, address and name; every index entry points
back into the member set with a consistent key; name buckets are
duplicate-free. -/
structure RegInv (reg : Reg) : Prop where
  nodup : reg.devices.Nodup
  fwd_socket : ∀ d ∈ reg.devices, reg.by_socket d.socket = some d
  fwd_address : ∀ d ∈ reg.devices, reg.by_address d.address = some d
  fwd_name : ∀ d ∈ reg.devices, ∃ s, reg.by_name d.name = some s ∧ d ∈ s
  bwd_socket : ∀ k d, reg.by_socket k = some d → d ∈ reg.devices ∧ d.socket = k
  bwd_address : ∀ k d, reg.by_address k = some d → d ∈ reg.devices ∧ d.address = k
  bwd_name : ∀ k s, reg.by_name k = some s → ∀ d ∈ s, d ∈ reg.devices ∧ d.name = k
  name_nodup : ∀ k s, reg.by_name k = some s → s.Nodup

/-- Freshness of a device not yet registered: no other member shares its
socket or address (names may be shared). -/
def FreshFor (reg : Reg) (d : Device) : Prop :=
  ∀ e ∈ reg.devices, e ≠ d → e.socket ≠ d.socket ∧ e.address ≠ d.address

/-! ## `Devices.receive_data`

`device.receive_data()` drains the socket and may flip the device's
`connected` flag (via `close_if_closed`); the socket behaviour is external,
so the pass is parameterised by oracles: `conn` is the connected flag before
the pass, `outLines` the lines each receive call returns, `outConn` the flag
it leaves behind, and `now` the `datetime.datetime.now()` stamp taken right
after each call. -/

def receive_data_pass (reg : Reg) (conn : Device → Bool)
    (outLines : Device → List (List ℕ)) (outConn : Device → Bool)
    (now : Device → Int) :
    Option (List (Device × (List (List ℕ) × Int)) × Reg × (Device → Bool)) :=
  let data := (reg.devices.filter (fun d => conn d)).map
    (fun d => (d, (outLines d, now d)))
  let conn2 : Device → Bool := fun d =>
    if reg.devices.contains d && conn d then outConn d else conn d
  let disconnected := reg.devices.filter (fun d => !conn2 d)
  match removeMany reg disconnected with
  | none => none
  | some reg2 => some (data, reg2, conn2)

/-! ## DiscoveryService: `BluetoothDiscovery` and `Device.create`

The transport is external; a connection attempt's outcome is given by an
oracle: success yields the new stream handle, `hostDown` is
`BluetoothError` with `errno == BT_ERROR_HOST_IS_DOWN` (112), and `fatal`
is any other `BluetoothError` (re-raised by `Device.create`). -/

inductive ConnectOutcome where
  | ok (socket : ℕ)
  | hostDown
  | fatal

/-- Model of `Device.create(address, name)`: `(device, None)` on success (the new
device has `connected = True`, the `Bool` component), `(None, error)` on
host-down, raise otherwise. -/
def Device.create (o : ConnectOutcome) (address name : List ℕ) :
    Except Unit (Option (Device × Bool)) :=
  match o with
  | .ok socket => .ok (some (⟨socket, address, name⟩, true))
  | .hostDown => .ok none
  | .fatal => .error ()

/-- Model of `BluetoothDiscovery.create_connection`: unwraps `Device.create`,
logging (and dropping) the host-down error. -/
def create_connection (o : ConnectOutcome) (address name : List ℕ) :
    Except Unit (Option (Device × Bool)) :=
  Device.create o address name

/-- The `for retry in range(retries)` loop of `create_connections` for one
`(address, name)` pair; `attempts` gives each attempt's outcome, `k` is the
index of the next attempt. -/
def tryConnectPair (attempts : ℕ → ConnectOutcome) (address name : List ℕ) :
    ℕ → ℕ → Except Unit (Option (Device × Bool))
  | 0, _ => .ok none
  | n + 1, k =>
    match create_connection (attempts k) address name with
    | .error e => .error e
    | .ok (some d) => .ok (some d)
    | .ok none => tryConnectPair attempts address name n (k + 1)

/-- How many attempts the loop makes (for the budget bound). -/
def attemptsUsed (attempts : ℕ → ConnectOutcome) : ℕ → ℕ → ℕ
  | 0, _ => 0
  | n + 1, k =>
    match attempts k with
    | .hostDown => 1 + attemptsUsed attempts n (k + 1)
    | _ => 1

/-- Model of `BluetoothDiscovery.create_connections`: per-pair retry loops, first
success appended, any fatal transport error propagating out of the whole
call.  `oracle i k` is the outcome of attempt `k` for pair index `i`. -/
def create_connections (oracle : ℕ → ℕ → ConnectOutcome) (retries : ℕ) :
    List (List ℕ × List ℕ) → ℕ → Except Unit (List (Device × Bool))
  | [], _ => .ok []
  | (address, name) :: rest, i =>
    match tryConnectPair (oracle i) address name retries 0 with
    | .error e => .error e
    | .ok od =>
      match create_connections oracle retries rest (i + 1) with
      | .error e => .error e
      | .ok ds => .ok (od.toList ++ ds)

/-! ## `BluetoothDiscovery.get_mac_addresses_by_name_with_bctl`

`Bluetoothctl.get_paired_devices` (src/bluetoothctl.py) returns a list of
`(mac_address, name)` entries, or `None` after a logged
`BluetoothctlError`.  The caller then does
`sorted(devices, key=sort_by_name)` — which raises `TypeError` when handed
`None` — and groups consecutive equal names. -/

def lexLt : List ℕ → List ℕ → Bool
  | [], [] => false
  | [], _ :: _ => true
  | _ :: _, [] => false
  | a :: as, b :: bs => if a < b then true else if b < a then false else lexLt as bs

/-- Stable insertion by name (Python `sorted` with `key=sort_by_name`). -/
def insertByName (x : List ℕ × List ℕ) :
    List (List ℕ × List ℕ) → List (List ℕ × List ℕ)
  | [] => [x]
  | y :: ys => if lexLt y.2 x.2 then y :: insertByName x ys else x :: y :: ys

def sortByName (l : List (List ℕ × List ℕ)) : List (List ℕ × List ℕ) :=
  l.foldr insertByName []

/-- Model of `itertools.groupby` over the name key plus the dict comprehension:
name → list of mac addresses of consecutive entries. -/
def groupByName : List (List ℕ × List ℕ) → List (List ℕ × List (List ℕ))
  | [] => []
  | (mac, nm) :: rest =>
    match groupByName rest with
    | (nm', macs) :: gs =>
      if nm' = nm then (nm, mac :: macs) :: gs else (nm, [mac]) :: (nm', macs) :: gs
    | [] => [(nm, [mac])]

/-- Model of `get_mac_addresses_by_name_with_bctl`; the argument is the value
returned by `get_paired_devices` (`none` = the collaborator failed and the
error was logged).  `sorted(None, ...)` raises `TypeError`, modelled by
`.error`. -/
def get_mac_addresses_by_name_with_bctl
    (paired : Option (List (List ℕ × List ℕ))) :
    Except Unit (List (List ℕ × List (List ℕ))) :=
  match paired with
  | none => .error ()
  | some devices => .ok (groupByName (sortByName devices))

/-- Model of `Devices.BLUETOOTH_PATTERN.match(name)` for `r'^SOIL-\d+$'` (with the
same `$`/trailing-newline rule as the envelope regex). -/
def soilMatch (name : List ℕ) : Bool :=
  let s := stripFinalNewline name
  s.take 5 == str2cp "SOIL-" && (s.drop 5 != []) &&
    (s.drop 5).all (fun c => isDigit c)

/-- Model of `BluetoothDiscovery.find_and_connect(pattern, ignore_addresses,
retries)` with the production pattern: filter the name-grouped mapping,
flatten to `(address, name)` pairs, and connect. -/
def bd_find_and_connect (paired : Option (List (List ℕ × List ℕ)))
    (ignore_addresses : List (List ℕ)) (retries : ℕ)
    (oracle : ℕ → ℕ → ConnectOutcome) : Except Unit (List (Device × Bool)) :=
  match get_mac_addresses_by_name_with_bctl paired with
  | .error e => .error e
  | .ok mapping =>
    let soil_addresses_and_names :=
      (mapping.filter (fun p => soilMatch p.1)).flatMap
        (fun p => (p.2.filter (fun a => !ignore_addresses.contains a)).map
          (fun a => (a, p.1)))
    create_connections oracle retries soil_addresses_and_names 0

/-- One iteration of `DeviceServer.threaded_find_and_connect`: any exception
escaping `find_and_connect` is caught and logged, and no devices are
published to the handoff queue for that cycle. -/
def discovery_cycle (paired : Option (List (List ℕ × List ℕ)))
    (ignore_addresses : List (List ℕ)) (retries : ℕ)
    (oracle : ℕ → ℕ → ConnectOutcome) : List (Device × Bool) :=
  match bd_find_and_connect paired ignore_addresses retries oracle with
  | .error _ => []
  | .ok ds => ds

/-- The concrete line of the end-to-end property (spec §8), as code points. -/
def c3line : List ℕ :=
  str2cp "[100[\x7b\"controller_id\":100,\"measurements\":[\x7b\"sensor_id\":1,\"plant_id\":1,\"moisture\":70\x7d],\"millis\":1000\x7d]100]"

/-- The concrete envelope-parser inputs of spec §8. -/
def c7line_ok : List ℕ := str2cp "[7[\x7b\"a\":1\x7d]7]"

def c7payload : List ℕ := str2cp "\x7b\"a\":1\x7d"

def c7line_mismatch : List ℕ := str2cp "[7[\x7b\"a\":1\x7d]8]"

def c7line_nobrackets : List ℕ := str2cp "no brackets"

/-! ## Theorems -/

theorem consHead_ne_nil (b : ℕ) (ls : List (List ℕ)) : consHead b ls ≠ [] := by
  cases ls <;> simp [consHead]

theorem consHead_cons (b : ℕ) (l : List ℕ) (ls : List (List ℕ)) :
    consHead b (l :: ls) = (b :: l) :: ls := rfl

theorem splitCRLF_ne_nil (s : List ℕ) : splitCRLF s ≠ [] := by
  match s with
  | [] => simp [splitCRLF]
  | [b] => simp [splitCRLF]
  | b :: c :: rest =>
    simp only [splitCRLF]
    split
    · simp
    · exact consHead_ne_nil _ _

theorem splitCRLF_crlf (t : List ℕ) : splitCRLF (13 :: 10 :: t) = [] :: splitCRLF t := by
  simp [splitCRLF]

theorem splitCRLF_cons_of_ne (b : ℕ) (y : List ℕ)
    (h : ¬(b = 13 ∧ y.head? = some 10)) :
    splitCRLF (b :: y) = consHead b (splitCRLF y) := by
  match y with
  | [] => rfl
  | c :: t =>
    simp only [splitCRLF]
    rw [if_neg (by simpa using h)]

/-- If a nonempty byte string splits into a single fragment, that fragment
starts with the same byte as the input. -/
theorem splitCRLF_single_head (s l : List ℕ) (h : splitCRLF s = [l]) :
    l.head? = s.head? := by
  match s with
  | [] => simp [splitCRLF] at h; simp [← h]
  | [b] => simp [splitCRLF] at h; simp [← h]
  | b :: c :: rest =>
    simp only [splitCRLF] at h
    split at h
    · exact absurd (List.cons.inj h).2 (splitCRLF_ne_nil _)
    · match h2 : splitCRLF (c :: rest) with
      | [] => exact absurd h2 (splitCRLF_ne_nil _)
      | l' :: ls =>
        rw [h2, consHead_cons] at h
        simp at h
        simp [← h.1]

theorem getLastD_of_ne_nil {α : Type} (l : List α) (a b : α) (h : l ≠ []) :
    l.getLastD a = l.getLastD b := by
  match l with
  | [] => exact absurd rfl h
  | x :: xs => rw [List.getLastD_cons, List.getLastD_cons]

/-- The central compositional property of `bytes.split(b'\r\n')`: splitting
`x ++ r` is splitting `x`, keeping all complete fragments, and re-splitting
the last (incomplete) fragment of `x` glued to `r`.  This is exactly why the
framer is insensitive to chunk boundaries. -/
theorem splitCRLF_append (x r : List ℕ) :
    splitCRLF (x ++ r) =
      (splitCRLF x).dropLast ++ splitCRLF ((splitCRLF x).getLastD [] ++ r) := by
  induction x using splitCRLF.induct with
  | case1 => simp [splitCRLF]
  | case2 b =>
    have hx : splitCRLF [b] = [[b]] := rfl
    simp [hx]
  | case3 b c rest h ih =>
    obtain ⟨rfl, rfl⟩ := h
    have hLHS : splitCRLF ((13 :: 10 :: rest) ++ r) = [] :: splitCRLF (rest ++ r) := by
      rw [List.cons_append, List.cons_append]; exact splitCRLF_crlf (rest ++ r)
    rw [hLHS, splitCRLF_crlf rest]
    have hne := splitCRLF_ne_nil rest
    rw [List.dropLast_cons_of_ne_nil hne, List.getLastD_cons, ih]
    simp
  | case4 b c rest h ih =>
    have hLHS : splitCRLF ((b :: c :: rest) ++ r) =
        consHead b (splitCRLF ((c :: rest) ++ r)) := by
      rw [List.cons_append, List.cons_append]
      exact splitCRLF_cons_of_ne b _ (by simpa using h)
    have hx : splitCRLF (b :: c :: rest) = consHead b (splitCRLF (c :: rest)) := by
      simp only [splitCRLF]
      rw [if_neg h]
    rw [hLHS, ih, hx]
    obtain ⟨l, ls, hS⟩ : ∃ l ls, splitCRLF (c :: rest) = l :: ls := by
      match h2 : splitCRLF (c :: rest) with
      | [] => exact absurd h2 (splitCRLF_ne_nil _)
      | l :: ls => exact ⟨l, ls, rfl⟩
    rw [hS]
    match ls with
    | [] =>
      have hl : l.head? = some c := by
        rw [splitCRLF_single_head (c :: rest) l hS]; rfl
      obtain ⟨l', rfl⟩ : ∃ l', l = c :: l' := by
        match l, hl with
        | a :: as, hl => exact ⟨as, by simpa using (by simpa using hl : a = c) ▸ rfl⟩
      simp only [consHead_cons, List.dropLast_single, List.getLastD_cons,
        List.getLastD_nil, List.nil_append, List.cons_append]
      rw [splitCRLF_cons_of_ne b (c :: (l' ++ r)) (by simpa using h)]
    | m :: ms =>
      simp only [consHead_cons, List.dropLast_cons₂, List.getLastD_cons]
      simp [consHead_cons]

theorem splitCRLF_exists_cons (y : List ℕ) : ∃ l ls, splitCRLF y = l :: ls := by
  match h : splitCRLF y with
  | [] => exact absurd h (splitCRLF_ne_nil _)
  | l :: ls => exact ⟨l, ls, rfl⟩

theorem eq_cons_of_head? {l : List ℕ} {c : ℕ} (h : l.head? = some c) :
    ∃ t, l = c :: t := by
  match l, h with
  | a :: t, h =>
    injection h with h
    exact ⟨t, by rw [h]⟩

theorem getLastD_append {α : Type} (l1 l2 : List α) (d : α) (h : l2 ≠ []) :
    (l1 ++ l2).getLastD d = l2.getLastD d := by
  rw [List.getLastD_eq_getLast?, List.getLastD_eq_getLast?, List.getLast?_append]
  obtain ⟨x, hx⟩ := Option.isSome_iff_exists.mp (List.getLast?_isSome.mpr h)
  rw [hx]
  rfl

/-- The retained fragment (the last fragment of a split) contains no
delimiter: splitting it again returns it whole.  This is the invariant that
keeps the framer's buffer delimiter-free between calls. -/
theorem splitCRLF_getLastD (y : List ℕ) :
    splitCRLF ((splitCRLF y).getLastD []) = [(splitCRLF y).getLastD []] := by
  induction y using splitCRLF.induct with
  | case1 => rfl
  | case2 b => rfl
  | case3 b c rest h ih =>
    obtain ⟨rfl, rfl⟩ := h
    rw [splitCRLF_crlf, List.getLastD_cons]
    exact ih
  | case4 b c rest h ih =>
    have hx : splitCRLF (b :: c :: rest) = consHead b (splitCRLF (c :: rest)) := by
      simp only [splitCRLF]; rw [if_neg h]
    rw [hx]
    obtain ⟨l, ls, hS⟩ := splitCRLF_exists_cons (c :: rest)
    rw [hS] at ih ⊢
    match ls with
    | [] =>
      have hl : l.head? = some c := by
        rw [splitCRLF_single_head _ _ hS]; rfl
      obtain ⟨l', rfl⟩ := eq_cons_of_head? hl
      rw [consHead_cons]
      simp only [List.getLastD_cons, List.getLastD_nil] at ih ⊢
      rw [splitCRLF_cons_of_ne b (c :: l') (by simpa using h), ih, consHead_cons]
    | m :: ms =>
      rw [consHead_cons]
      simp only [List.getLastD_cons] at ih ⊢
      exact ih

/-- Full characterisation of a framer run from a delimiter-free buffer: the
outcome only depends on the concatenation of the chunks; the emitted lines
are the decoded fragments before the last delimiter, and the final buffer is
the bytes after the last delimiter. -/
theorem runFramer_eq (cs : List (List ℕ)) (buf : List ℕ)
    (hbuf : splitCRLF buf = [buf]) :
    runFramer buf cs =
      ((splitCRLF (buf ++ cs.flatten)).dropLast.mapM utf8Decode).map
        (fun L => (L, (splitCRLF (buf ++ cs.flatten)).getLastD [])) := by
  induction cs generalizing buf with
  | nil =>
    simp [runFramer, hbuf]
    rfl
  | cons c cs ih =>
    have hBne := splitCRLF_ne_nil ((splitCRLF (buf ++ c)).getLastD [] ++ cs.flatten)
    have htot : buf ++ (c :: cs).flatten = (buf ++ c) ++ cs.flatten := by
      simp [List.flatten_cons]
    rw [runFramer, htot, splitCRLF_append (buf ++ c) cs.flatten]
    rw [List.dropLast_append, if_neg (by simpa [List.isEmpty_iff] using hBne)]
    rw [getLastD_append _ _ _ hBne]
    rw [List.mapM_append]
    simp only [append_socket_data]
    rcases hA : (splitCRLF (buf ++ c)).dropLast.mapM utf8Decode with _ | ls
    · simp [hA]
    · have hrec := ih ((splitCRLF (buf ++ c)).getLastD []) (splitCRLF_getLastD (buf ++ c))
      rcases hB : (splitCRLF ((splitCRLF (buf ++ c)).getLastD [] ++ cs.flatten)).dropLast.mapM
          utf8Decode with _ | ls2 <;>
        rw [hB] at hrec <;>
        simp only [List.getLastD_eq_getLast?] at hrec <;> simp [hA, hB, hrec]

mutual

theorem Json.beq_refl : ∀ j : Json, Json.beq j j = true
  | .num a => by simp [Json.beq]
  | .str a => by simp [Json.beq]
  | .bool a => by simp [Json.beq]
  | .null => by simp [Json.beq]
  | .arr xs => by simp [Json.beq, Json.beqArr_refl xs]
  | .obj xs => by simp [Json.beq, Json.beqObj_refl xs]

theorem Json.beqArr_refl : ∀ xs : List Json, Json.beqArr xs xs = true
  | [] => by simp [Json.beqArr]
  | x :: xs => by simp [Json.beqArr, Json.beq_refl x, Json.beqArr_refl xs]

theorem Json.beqObj_refl : ∀ xs : List (List ℕ × Json), Json.beqObj xs xs = true
  | [] => by simp [Json.beqObj]
  | (k, v) :: xs => by simp [Json.beqObj, Json.beq_refl v, Json.beqObj_refl xs]

end

theorem estGet_estSet_self (m : EstMap) (k : Json) (v : Int) :
    estGet (estSet m k v) k = some v := by
  induction m with
  | nil => simp [estGet, estSet, Json.beq_refl]
  | cons p rest ih =>
    obtain ⟨k', v'⟩ := p
    by_cases h : Json.beq k' k = true
    · simp [estGet, estSet, h]
    · simp [estGet, estSet, h, ih]

theorem gdbse_fst (m : EstMap) (cid : Json) (est : Int) :
    (get_device_best_startup_estimate m cid est).1 = estStep (estGet m cid) est := by
  unfold get_device_best_startup_estimate estStep
  cases estGet m cid <;> simp

theorem gdbse_get (m : EstMap) (cid : Json) (est : Int) :
    estGet (get_device_best_startup_estimate m cid est).2 cid =
      some (estStep (estGet m cid) est) := by
  unfold get_device_best_startup_estimate estStep
  cases estGet m cid <;> simp [estGet_estSet_self]

/-- Per-controller view of a whole run: the stored estimate is a fold of
`min`-steps over the candidates `received_at − uptime`. -/
theorem estGet_runReconcile (samples : List (Int × Int)) (m : EstMap) (cid : Json) :
    estGet (runReconcile m cid samples) cid =
      List.foldl optStep (estGet m cid) (samples.map (fun s => s.1 - s.2)) := by
  induction samples generalizing m with
  | nil => rfl
  | cons s ss ih =>
    show estGet (runReconcile (reconcile m cid s.1 s.2).2 cid ss) cid = _
    rw [ih]
    simp only [reconcile, List.map_cons, List.foldl_cons, optStep, gdbse_get]

theorem foldl_optStep_some (cs : List Int) (c0 : Int) :
    List.foldl optStep (some c0) cs = some (List.foldl min c0 cs) := by
  induction cs generalizing c0 with
  | nil => rfl
  | cons c cs ih => simp [optStep, estStep, ih]

theorem mset_self {κ α : Type} [DecidableEq κ] (m : κ → Option α) (k : κ) (v : α) :
    mset m k v k = some v := by simp [mset]

theorem mset_ne {κ α : Type} [DecidableEq κ] (m : κ → Option α) (k : κ) (v : α)
    (x : κ) (h : x ≠ k) : mset m k v x = m x := by simp [mset, h]

theorem mdel_self {κ α : Type} [DecidableEq κ] (m : κ → Option α) (k : κ) :
    mdel m k k = none := by simp [mdel]

theorem mdel_ne {κ α : Type} [DecidableEq κ] (m : κ → Option α) (k : κ)
    (x : κ) (h : x ≠ k) : mdel m k x = m x := by simp [mdel, h]

/-- Under the invariant, sockets are unique across registered devices. -/
theorem socket_inj {reg : Reg} (hinv : RegInv reg) {d e : Device}
    (hd : d ∈ reg.devices) (he : e ∈ reg.devices)
    (h : e.socket = d.socket) : e = d := by
  have h1 := hinv.fwd_socket e he
  have h2 := hinv.fwd_socket d hd
  rw [h] at h1
  rw [h1] at h2
  injection h2

theorem address_inj {reg : Reg} (hinv : RegInv reg) {d e : Device}
    (hd : d ∈ reg.devices) (he : e ∈ reg.devices)
    (h : e.address = d.address) : e = d := by
  have h1 := hinv.fwd_address e he
  have h2 := hinv.fwd_address d hd
  rw [h] at h1
  rw [h1] at h2
  injection h2

/-- Under the invariant, `Devices.remove` on a member succeeds and performs
exactly the four container updates. -/
theorem Reg.remove_eq (reg : Reg) (d : Device) (hinv : RegInv reg)
    (hd : d ∈ reg.devices) :
    ∃ s, reg.by_name d.name = some s ∧ d ∈ s ∧
      reg.remove d = some ⟨reg.devices.erase d, mdel reg.by_socket d.socket,
        mdel reg.by_address d.address, mset reg.by_name d.name (s.erase d)⟩ := by
  obtain ⟨s, hs, hds⟩ := hinv.fwd_name d hd
  refine ⟨s, hs, hds, ?_⟩
  have hc : reg.devices.contains d = true := List.elem_iff.mpr hd
  have hc2 : s.contains d = true := List.elem_iff.mpr hds
  simp [Reg.remove, hc, hinv.fwd_socket d hd, hinv.fwd_address d hd, hs, hc2]
  exact ⟨hd, hds⟩

/-- Removal via `Devices.remove` on a member preserves the invariant and leaves no
index entry for the removed device. -/
theorem RegInv.remove_of_mem {reg : Reg} {d : Device} (hinv : RegInv reg)
    (hd : d ∈ reg.devices) {reg' : Reg} (h : reg.remove d = some reg') :
    RegInv reg' ∧ reg'.devices = reg.devices.erase d ∧
      (∀ k, reg'.by_socket k ≠ some d) ∧
      (∀ k, reg'.by_address k ≠ some d) ∧
      (∀ k s, reg'.by_name k = some s → d ∉ s) := by
  obtain ⟨s, hs, hds, heq⟩ := Reg.remove_eq reg d hinv hd
  rw [heq] at h
  injection h with h
  subst h
  have hsnd := hinv.name_nodup d.name s hs
  refine ⟨⟨?_, ?_, ?_, ?_, ?_, ?_, ?_, ?_⟩, rfl, ?_, ?_, ?_⟩ <;> dsimp only
  · exact hinv.nodup.erase d
  · intro e he
    obtain ⟨hne, hmem⟩ := (hinv.nodup.mem_erase_iff).mp he
    rw [mdel_ne _ _ _ (fun hq => hne (socket_inj hinv hd hmem hq))]
    exact hinv.fwd_socket e hmem
  · intro e he
    obtain ⟨hne, hmem⟩ := (hinv.nodup.mem_erase_iff).mp he
    rw [mdel_ne _ _ _ (fun hq => hne (address_inj hinv hd hmem hq))]
    exact hinv.fwd_address e hmem
  · intro e he
    obtain ⟨hne, hmem⟩ := (hinv.nodup.mem_erase_iff).mp he
    obtain ⟨s', hs', hes'⟩ := hinv.fwd_name e hmem
    by_cases hname : e.name = d.name
    · refine ⟨s.erase d, ?_, ?_⟩
      · rw [hname, mset_self]
      · rw [hname, hs] at hs'
        injection hs' with hs'
        subst hs'
        exact (hsnd.mem_erase_iff).mpr ⟨hne, hes'⟩
    · exact ⟨s', by rw [mset_ne _ _ _ _ hname]; exact hs', hes'⟩
  · intro k e hk
    by_cases hksock : k = d.socket
    · rw [hksock, mdel_self] at hk
      exact absurd hk (by simp)
    · rw [mdel_ne _ _ _ hksock] at hk
      obtain ⟨hmem, hsk⟩ := hinv.bwd_socket k e hk
      have hne : e ≠ d := fun he => hksock (by rw [← hsk, he])
      exact ⟨(hinv.nodup.mem_erase_iff).mpr ⟨hne, hmem⟩, hsk⟩
  · intro k e hk
    by_cases hkaddr : k = d.address
    · rw [hkaddr, mdel_self] at hk
      exact absurd hk (by simp)
    · rw [mdel_ne _ _ _ hkaddr] at hk
      obtain ⟨hmem, hsk⟩ := hinv.bwd_address k e hk
      have hne : e ≠ d := fun he => hkaddr (by rw [← hsk, he])
      exact ⟨(hinv.nodup.mem_erase_iff).mpr ⟨hne, hmem⟩, hsk⟩
  · intro k s' hk e hes'
    by_cases hkname : k = d.name
    · rw [hkname, mset_self] at hk
      injection hk with hk
      subst hk
      obtain ⟨hne, hes⟩ := (hsnd.mem_erase_iff).mp hes'
      obtain ⟨hmem, hname⟩ := hinv.bwd_name d.name s hs e hes
      exact ⟨(hinv.nodup.mem_erase_iff).mpr ⟨hne, hmem⟩, by rw [hname, hkname]⟩
    · rw [mset_ne _ _ _ _ hkname] at hk
      obtain ⟨hmem, hname⟩ := hinv.bwd_name k s' hk e hes'
      have hne : e ≠ d := fun he => hkname (by rw [← hname, he])
      exact ⟨(hinv.nodup.mem_erase_iff).mpr ⟨hne, hmem⟩, hname⟩
  · intro k s' hk
    by_cases hkname : k = d.name
    · rw [hkname, mset_self] at hk
      injection hk with hk
      subst hk
      exact hsnd.erase d
    · rw [mset_ne _ _ _ _ hkname] at hk
      exact hinv.name_nodup k s' hk
  · intro k hk
    by_cases hksock : k = d.socket
    · rw [hksock, mdel_self] at hk
      exact absurd hk (by simp)
    · rw [mdel_ne _ _ _ hksock] at hk
      exact hksock ((hinv.bwd_socket k d hk).2).symm
  · intro k hk
    by_cases hkaddr : k = d.address
    · rw [hkaddr, mdel_self] at hk
      exact absurd hk (by simp)
    · rw [mdel_ne _ _ _ hkaddr] at hk
      exact hkaddr ((hinv.bwd_address k d hk).2).symm
  · intro k s' hk hdm
    by_cases hkname : k = d.name
    · rw [hkname, mset_self] at hk
      injection hk with hk
      subst hk
      exact absurd hdm (by simp [hsnd.mem_erase_iff])
    · rw [mset_ne _ _ _ _ hkname] at hk
      exact hkname ((hinv.bwd_name k s' hk d hdm).2).symm

/-- Adding via `Devices.add` a device whose socket and address are not already
registered preserves the invariant. -/
theorem RegInv.add_fresh {reg : Reg} {d : Device} (hinv : RegInv reg)
    (hfresh : FreshFor reg d) : RegInv (reg.add d) := by
  by_cases hdm : d ∈ reg.devices
  · have hc : reg.devices.contains d = true := List.elem_iff.mpr hdm
    obtain ⟨s0, hs0, hds0⟩ := hinv.fwd_name d hdm
    have hdev : (reg.add d).devices = reg.devices := by simp [Reg.add, hc, hdm]
    have hbs : (reg.add d).by_socket = mset reg.by_socket d.socket d := rfl
    have hba : (reg.add d).by_address = mset reg.by_address d.address d := rfl
    have hbn : (reg.add d).by_name = mset reg.by_name d.name s0 := by
      simp [Reg.add, hs0, hds0]
    refine ⟨?_, ?_, ?_, ?_, ?_, ?_, ?_, ?_⟩
    · rw [hdev]
      exact hinv.nodup
    · intro e he
      rw [hdev] at he
      rw [hbs]
      by_cases hse : e.socket = d.socket
      · have : e = d := socket_inj hinv hdm he hse
        subst this
        rw [hse, mset_self]
      · rw [mset_ne _ _ _ _ hse]
        exact hinv.fwd_socket e he
    · intro e he
      rw [hdev] at he
      rw [hba]
      by_cases hse : e.address = d.address
      · have : e = d := address_inj hinv hdm he hse
        subst this
        rw [hse, mset_self]
      · rw [mset_ne _ _ _ _ hse]
        exact hinv.fwd_address e he
    · intro e he
      rw [hdev] at he
      rw [hbn]
      by_cases hne : e.name = d.name
      · refine ⟨s0, by rw [hne, mset_self], ?_⟩
        obtain ⟨s', hs', hes'⟩ := hinv.fwd_name e he
        rw [hne, hs0] at hs'
        injection hs' with hs'
        subst hs'
        exact hes'
      · obtain ⟨s', hs', hes'⟩ := hinv.fwd_name e he
        exact ⟨s', by rw [mset_ne _ _ _ _ hne]; exact hs', hes'⟩
    · intro k e hk
      rw [hbs] at hk
      rw [hdev]
      by_cases hks : k = d.socket
      · rw [hks, mset_self] at hk
        injection hk with hk
        subst hk
        exact ⟨hdm, by rw [hks]⟩
      · rw [mset_ne _ _ _ _ hks] at hk
        exact hinv.bwd_socket k e hk
    · intro k e hk
      rw [hba] at hk
      rw [hdev]
      by_cases hks : k = d.address
      · rw [hks, mset_self] at hk
        injection hk with hk
        subst hk
        exact ⟨hdm, by rw [hks]⟩
      · rw [mset_ne _ _ _ _ hks] at hk
        exact hinv.bwd_address k e hk
    · intro k s' hk
      rw [hbn] at hk
      by_cases hks : k = d.name
      · rw [hks, mset_self] at hk
        injection hk with hk
        subst hk
        intro e hes
        have := hinv.bwd_name d.name s0 hs0 e hes
        rw [hdev]
        exact ⟨this.1, by rw [this.2, hks]⟩
      · rw [mset_ne _ _ _ _ hks] at hk
        intro e hes
        have := hinv.bwd_name k s' hk e hes
        rw [hdev]
        exact this
    · intro k s' hk
      rw [hbn] at hk
      by_cases hks : k = d.name
      · rw [hks, mset_self] at hk
        injection hk with hk
        subst hk
        exact hinv.name_nodup d.name s0 hs0
      · rw [mset_ne _ _ _ _ hks] at hk
        exact hinv.name_nodup k s' hk
  · have hc : reg.devices.contains d = false := by
      rw [Bool.eq_false_iff]
      intro hcon
      exact hdm (List.elem_iff.mp hcon)
    have hdev : (reg.add d).devices = reg.devices ++ [d] := by
      simp [Reg.add, hc, hdm]
    have hbs : (reg.add d).by_socket = mset reg.by_socket d.socket d := rfl
    have hba : (reg.add d).by_address = mset reg.by_address d.address d := rfl
    have hmem : ∀ e : Device, e ∈ reg.devices ++ [d] ↔ e ∈ reg.devices ∨ e = d := by
      intro e
      simp
    obtain ⟨t, hbn, hdt, hsub, htnd⟩ :
        ∃ t, (reg.add d).by_name = mset reg.by_name d.name t ∧ d ∈ t ∧
          (∀ e ∈ t, e ≠ d → e ∈ reg.devices ∧ e.name = d.name) ∧ t.Nodup := by
      cases hb : reg.by_name d.name with
      | none =>
        refine ⟨[d], by simp [Reg.add, hb], by simp, by simp, by simp⟩
      | some s =>
        have hdnots : d ∉ s := fun hds =>
          hdm (hinv.bwd_name d.name s hb d hds).1
        refine ⟨s ++ [d], by simp [Reg.add, hb, hdnots], by simp, ?_, ?_⟩
        · intro e hes hne
          rcases (by simpa using hes : e ∈ s ∨ e = d) with hes | rfl
          · exact hinv.bwd_name d.name s hb e hes
          · exact absurd rfl hne
        · rw [List.nodup_append]
          exact ⟨hinv.name_nodup d.name s hb, by simp, by simpa using hdnots⟩
    refine ⟨?_, ?_, ?_, ?_, ?_, ?_, ?_, ?_⟩
    · rw [hdev, List.nodup_append]
      exact ⟨hinv.nodup, by simp, by simpa using hdm⟩
    · intro e he
      rw [hdev] at he
      rw [hbs]
      rcases (hmem e).mp he with he | rfl
      · have hne : e ≠ d := fun hq => hdm (hq ▸ he)
        rw [mset_ne _ _ _ _ (hfresh e he hne).1]
        exact hinv.fwd_socket e he
      · rw [mset_self]
    · intro e he
      rw [hdev] at he
      rw [hba]
      rcases (hmem e).mp he with he | rfl
      · have hne : e ≠ d := fun hq => hdm (hq ▸ he)
        rw [mset_ne _ _ _ _ (hfresh e he hne).2]
        exact hinv.fwd_address e he
      · rw [mset_self]
    · intro e he
      rw [hdev] at he
      rcases (hmem e).mp he with he | rfl
      · by_cases hne : e.name = d.name
        · refine ⟨t, by rw [hbn, hne, mset_self], ?_⟩
          obtain ⟨s', hs', hes'⟩ := hinv.fwd_name e he
          rw [hne] at hs'
          cases hb : reg.by_name d.name with
          | none =>
            rw [hb] at hs'
            exact absurd hs' (by simp)
          | some s =>
            rw [hb] at hs'
            injection hs' with hs'
            subst hs'
            have hdnots : d ∉ s := fun hds =>
              hdm (hinv.bwd_name d.name s hb d hds).1
            have ht2 : (reg.add d).by_name =
                mset reg.by_name d.name (s ++ [d]) := by
              simp [Reg.add, hb, hdnots]
            have ht3 : s ++ [d] = t := by
              have happ := congrFun (ht2.symm.trans hbn) d.name
              rw [mset_self, mset_self] at happ
              injection happ
            rw [← ht3]
            simp [hes']
        · obtain ⟨s', hs', hes'⟩ := hinv.fwd_name e he
          exact ⟨s', by rw [hbn, mset_ne _ _ _ _ hne]; exact hs', hes'⟩
      · exact ⟨t, by rw [hbn, mset_self], hdt⟩
    · intro k e hk
      rw [hbs] at hk
      rw [hdev]
      by_cases hks : k = d.socket
      · rw [hks, mset_self] at hk
        injection hk with hk
        subst hk
        exact ⟨(hmem d).mpr (Or.inr rfl), by rw [hks]⟩
      · rw [mset_ne _ _ _ _ hks] at hk
        have := hinv.bwd_socket k e hk
        exact ⟨(hmem e).mpr (Or.inl this.1), this.2⟩
    · intro k e hk
      rw [hba] at hk
      rw [hdev]
      by_cases hks : k = d.address
      · rw [hks, mset_self] at hk
        injection hk with hk
        subst hk
        exact ⟨(hmem d).mpr (Or.inr rfl), by rw [hks]⟩
      · rw [mset_ne _ _ _ _ hks] at hk
        have := hinv.bwd_address k e hk
        exact ⟨(hmem e).mpr (Or.inl this.1), this.2⟩
    · intro k s' hk
      rw [hbn] at hk
      rw [hdev]
      by_cases hks : k = d.name
      · rw [hks, mset_self] at hk
        injection hk with hk
        subst hk
        intro e hes
        by_cases hne : e = d
        · subst hne
          exact ⟨(hmem e).mpr (Or.inr rfl), by rw [hks]⟩
        · have := hsub e hes hne
          exact ⟨(hmem e).mpr (Or.inl this.1), by rw [this.2, hks]⟩
      · rw [mset_ne _ _ _ _ hks] at hk
        intro e hes
        have := hinv.bwd_name k s' hk e hes
        exact ⟨(hmem e).mpr (Or.inl this.1), this.2⟩
    · intro k s' hk
      rw [hbn] at hk
      by_cases hks : k = d.name
      · rw [hks, mset_self] at hk
        injection hk with hk
        subst hk
        exact htnd
      · rw [mset_ne _ _ _ _ hks] at hk
        exact hinv.name_nodup k s' hk

/-- Removing a duplicate-free batch of members succeeds, preserves the
invariant, and leaves exactly the non-batch members. -/
theorem removeMany_eq (ds : List Device) (reg : Reg) (hinv : RegInv reg)
    (hnd : ds.Nodup) (hsub : ∀ d ∈ ds, d ∈ reg.devices) :
    ∃ reg', removeMany reg ds = some reg' ∧ RegInv reg' ∧
      reg'.devices = reg.devices.filter (fun x => !ds.contains x) := by
  induction ds generalizing reg with
  | nil =>
    refine ⟨reg, rfl, hinv, ?_⟩
    conv_lhs => rw [← List.filter_true reg.devices]
    exact (List.filter_congr (fun x _ => by simp)).symm
  | cons d ds ih =>
    have hd : d ∈ reg.devices := hsub d (by simp)
    obtain ⟨s, hs, hds, heq⟩ := Reg.remove_eq reg d hinv hd
    obtain ⟨hinv2, hdev2, _⟩ := RegInv.remove_of_mem hinv hd heq
    have hnd2 : ds.Nodup := hnd.of_cons
    have hdnd : d ∉ ds := by
      intro hcon
      exact (List.nodup_cons.mp hnd).1 hcon
    have hsub2 : ∀ e ∈ ds, e ∈ (Reg.devices
        ⟨reg.devices.erase d, mdel reg.by_socket d.socket,
          mdel reg.by_address d.address,
          mset reg.by_name d.name (s.erase d)⟩) := by
      intro e he
      dsimp only
      refine (hinv.nodup.mem_erase_iff).mpr ⟨?_, hsub e (by simp [he])⟩
      intro hcon
      exact hdnd (hcon ▸ he)
    obtain ⟨reg', hrm, hinv', hdev'⟩ := ih _ hinv2 hnd2 hsub2
    refine ⟨reg', ?_, hinv', ?_⟩
    · show removeMany reg (d :: ds) = some reg'
      unfold removeMany
      rw [heq]
      exact hrm
    · rw [hdev']
      dsimp only
      rw [hinv.nodup.erase_eq_filter d, List.filter_filter]
      refine List.filter_congr ?_
      intro x _
      by_cases hxd : x = d
      · subst hxd
        simp
      · simp [hxd, Ne.symm hxd]

/-- Behaviour of `Devices.receive_data` under the invariant: the returned mapping has one
entry per device connected at the start of the pass (with its receive result
and timestamp), the pass succeeds, the registry keeps exactly the devices
still connected afterwards, and the invariant is preserved. -/
theorem receive_data_pass_eq (reg : Reg) (conn : Device → Bool)
    (outLines : Device → List (List ℕ)) (outConn : Device → Bool)
    (now : Device → Int) (hinv : RegInv reg) :
    ∃ reg2, receive_data_pass reg conn outLines outConn now =
      some ((reg.devices.filter (fun d => conn d)).map
          (fun d => (d, (outLines d, now d))),
        reg2,
        fun d => if reg.devices.contains d && conn d then outConn d else conn d) ∧
      RegInv reg2 ∧
      reg2.devices = reg.devices.filter
        (fun d => if reg.devices.contains d && conn d then outConn d else conn d) ∧
      ∀ d ∈ reg2.devices,
        (if reg.devices.contains d && conn d then outConn d else conn d) = true := by
  set conn2 : Device → Bool :=
    fun d => if reg.devices.contains d && conn d then outConn d else conn d with hconn2
  have hnd : (reg.devices.filter (fun d => !conn2 d)).Nodup := hinv.nodup.filter _
  have hsub : ∀ d ∈ reg.devices.filter (fun d => !conn2 d), d ∈ reg.devices := by
    intro d hdm
    exact (List.mem_filter.mp hdm).1
  obtain ⟨reg2, hrm, hinv2, hdev2⟩ := removeMany_eq _ reg hinv hnd hsub
  have hchar : reg2.devices = reg.devices.filter (fun d => conn2 d) := by
    rw [hdev2]
    refine List.filter_congr ?_
    intro x hx
    cases hcx : conn2 x with
    | true =>
      have hnotin : x ∉ reg.devices.filter (fun d => !conn2 d) := by
        intro hcon
        have := (List.mem_filter.mp hcon).2
        rw [hcx] at this
        simp at this
      simp [List.elem_iff, hnotin]
    | false =>
      have hin : x ∈ reg.devices.filter (fun d => !conn2 d) := by
        refine List.mem_filter.mpr ⟨hx, ?_⟩
        rw [hcx]
        rfl
      simp [List.elem_iff, hin]
  refine ⟨reg2, ?_, hinv2, hchar, ?_⟩
  · show (match removeMany reg (reg.devices.filter (fun d => !conn2 d)) with
      | none => none
      | some reg2 => some ((reg.devices.filter (fun d => conn d)).map
          (fun d => (d, (outLines d, now d))), reg2, conn2)) = _
    rw [hrm]
  · intro d hdm
    rw [hchar] at hdm
    exact (List.mem_filter.mp hdm).2

/-- If attempts `k, …, k+j-1` are host-down and attempt `k+j` succeeds
within the budget, the loop returns that connection (connected flag set)
and consumed exactly `j + 1` attempts. -/
theorem tryConnectPair_first_success (attempts : ℕ → ConnectOutcome)
    (address name : List ℕ) :
    ∀ n k j s, j < n → (∀ i, i < j → attempts (k + i) = .hostDown) →
      attempts (k + j) = .ok s →
      tryConnectPair attempts address name n k =
        .ok (some (⟨s, address, name⟩, true)) ∧
      attemptsUsed attempts n k = j + 1 := by
  intro n
  induction n with
  | zero =>
    intro k j s hj
    exact absurd hj (by omega)
  | succ n ih =>
    intro k j s hj hdown hok
    match j with
    | 0 =>
      rw [Nat.add_zero] at hok
      refine ⟨?_, ?_⟩
      · simp only [tryConnectPair, hok, create_connection, Device.create]
      · simp only [attemptsUsed, hok]
    | j' + 1 =>
      have hk : attempts k = .hostDown := by
        have := hdown 0 (by omega)
        rwa [Nat.add_zero] at this
      have hdown' : ∀ i, i < j' → attempts (k + 1 + i) = .hostDown := by
        intro i hi
        have := hdown (i + 1) (by omega)
        rwa [show k + (i + 1) = k + 1 + i by omega] at this
      have hok' : attempts (k + 1 + j') = .ok s := by
        rwa [show k + 1 + j' = k + (j' + 1) by omega]
      obtain ⟨h1, h2⟩ := ih (k + 1) j' s (by omega) hdown' hok'
      refine ⟨?_, ?_⟩
      · simp only [tryConnectPair, hk, create_connection, Device.create]
        exact h1
      · simp only [attemptsUsed, hk, h2]
        omega

/-- The loop never makes more than `retries` attempts. -/
theorem attemptsUsed_le (attempts : ℕ → ConnectOutcome) :
    ∀ n k, attemptsUsed attempts n k ≤ n := by
  intro n
  induction n with
  | zero =>
    intro k
    exact Nat.le_refl 0
  | succ n ih =>
    intro k
    cases hA : attempts k <;> simp only [attemptsUsed, hA]
    · omega
    · have := ih (k + 1)
      omega
    · omega

/-- A non-host-down transport error within the budget (after only host-down
attempts) escapes the retry loop. -/
theorem tryConnectPair_fatal (attempts : ℕ → ConnectOutcome)
    (address name : List ℕ) :
    ∀ n k j, j < n → (∀ i, i < j → attempts (k + i) = .hostDown) →
      attempts (k + j) = .fatal →
      tryConnectPair attempts address name n k = .error () := by
  intro n
  induction n with
  | zero =>
    intro k j hj
    exact absurd hj (by omega)
  | succ n ih =>
    intro k j hj hdown hfatal
    match j with
    | 0 =>
      rw [Nat.add_zero] at hfatal
      simp only [tryConnectPair, hfatal, create_connection, Device.create]
    | j' + 1 =>
      have hk : attempts k = .hostDown := by
        have := hdown 0 (by omega)
        rwa [Nat.add_zero] at this
      simp only [tryConnectPair, hk, create_connection, Device.create]
      refine ih (k + 1) j' (by omega) ?_ ?_
      · intro i hi
        have := hdown (i + 1) (by omega)
        rwa [show k + (i + 1) = k + 1 + i by omega] at this
      · rwa [show k + 1 + j' = k + (j' + 1) by omega]

/-- A fatal outcome for the first pair aborts the whole
`create_connections` call. -/
theorem create_connections_fatal_head (oracle : ℕ → ℕ → ConnectOutcome)
    (retries : ℕ) (address name : List ℕ) (rest : List (List ℕ × List ℕ))
    (i : ℕ) (h : tryConnectPair (oracle i) address name retries 0 = .error ()) :
    create_connections oracle retries ((address, name) :: rest) i = .error () := by
  unfold create_connections
  rw [h]

/-- A successful head pair contributes its device in front of the rest. -/
theorem create_connections_cons_ok (oracle : ℕ → ℕ → ConnectOutcome)
    (retries : ℕ) (address name : List ℕ) (rest : List (List ℕ × List ℕ))
    (i : ℕ) (d : Device × Bool) (ds : List (Device × Bool))
    (h1 : tryConnectPair (oracle i) address name retries 0 = .ok (some d))
    (h2 : create_connections oracle retries rest (i + 1) = .ok ds) :
    create_connections oracle retries ((address, name) :: rest) i =
      .ok (d :: ds) := by
  unfold create_connections
  rw [h1, h2]
  rfl

theorem mapM_length_option {α β : Type} (f : α → Option β) :
    ∀ (l : List α) (L : List β), l.mapM f = some L → L.length = l.length := by
  intro l
  induction l with
  | nil =>
    intro L h
    have h' : (some ([] : List β)) = some L := h
    injection h' with h'
    simp [← h']
  | cons a l ih =>
    intro L h
    rw [List.mapM_cons] at h
    cases hf : f a with
    | none => rw [hf] at h; simp at h
    | some b =>
      rw [hf] at h
      cases hl : l.mapM f with
      | none => rw [hl] at h; simp at h
      | some L' =>
        rw [hl] at h
        simp at h
        rw [← h]
        simp [ih L' hl]

theorem mapM_option_none {α β : Type} (f : α → Option β) :
    ∀ (l : List α) (a : α), a ∈ l → f a = none → l.mapM f = none := by
  intro l
  induction l with
  | nil =>
    intro a ha
    exact absurd ha (by simp)
  | cons x l ih =>
    intro a ha hf
    rw [List.mapM_cons]
    rcases List.mem_cons.mp ha with rfl | ha
    · rw [hf]
      rfl
    · cases hx : f x with
      | none => rfl
      | some b => rw [ih a ha hf]; rfl

theorem Reg.mem_add_self (reg : Reg) (d : Device) : d ∈ (reg.add d).devices := by
  by_cases hdm : d ∈ reg.devices
  · have hc : reg.devices.contains d = true := List.elem_iff.mpr hdm
    simp [Reg.add, hc, hdm]
  · have hc : reg.devices.contains d = false := by
      rw [Bool.eq_false_iff]
      intro hcon
      exact hdm (List.elem_iff.mp hcon)
    simp [Reg.add, hc, hdm]

theorem RegInv_empty : RegInv emptyReg := by
  constructor <;> simp [emptyReg]

theorem takeWhile_digits (p : ℕ → Bool) :
    ∀ (ds : List ℕ) (x : ℕ) (r : List ℕ), (∀ d ∈ ds, p d = true) → p x = false →
      (ds ++ x :: r).takeWhile p = ds ∧ (ds ++ x :: r).dropWhile p = x :: r := by
  intro ds
  induction ds with
  | nil =>
    intro x r _ hx
    simp [List.takeWhile_cons, List.dropWhile_cons, hx]
  | cons d ds ih =>
    intro x r hds hx
    have hd : p d = true := hds d (by simp)
    obtain ⟨h1, h2⟩ := ih x r (fun e he => hds e (by simp [he])) hx
    simp [List.takeWhile_cons, List.dropWhile_cons, hd, h1, h2]

/-! ## Claim theorems -/

/-- C1: For every controller id and every finite sequence of
`(receivedAt, reportedUptime)` samples fed to the reconciler for that
controller, the stored `bestStartupEstimate` after the sequence equals the
running minimum over the sequence of `receivedAt_i − reportedUptime_i`
(stated as a `min`-fold, i.e. the minimum of the candidate list);
the result is independent of the order in which the samples arrive; the
stored estimate never increases across calls; and each call returns
`storedEstimate + reportedUptime` as `takenAt` (where `storedEstimate` is
the value stored by that call). -/
theorem C1_reconciler_running_min :
    (∀ (m : EstMap) (cid : Json) (s0 : Int × Int) (rest : List (Int × Int)),
      estGet m cid = none →
      estGet (runReconcile m cid (s0 :: rest)) cid =
        some (List.foldl min (s0.1 - s0.2) (rest.map (fun s => s.1 - s.2))))
    ∧ (∀ (m : EstMap) (cid : Json) (samples samples' : List (Int × Int)),
      samples.Perm samples' →
      estGet (runReconcile m cid samples) cid =
        estGet (runReconcile m cid samples') cid)
    ∧ (∀ (m : EstMap) (cid : Json) (r u v : Int),
      estGet m cid = some v →
      estGet (reconcile m cid r u).2 cid = some (min v (r - u)) ∧
        min v (r - u) ≤ v)
    ∧ (∀ (m : EstMap) (cid : Json) (r u : Int),
      estGet (reconcile m cid r u).2 cid =
        some (estStep (estGet m cid) (r - u)) ∧
      (reconcile m cid r u).1 = estStep (estGet m cid) (r - u) + u) := by
  refine ⟨?_, ?_, ?_, ?_⟩
  · intro m cid s0 rest h
    rw [estGet_runReconcile, h]
    rw [List.map_cons, List.foldl_cons]
    exact foldl_optStep_some _ _
  · intro m cid samples samples' hperm
    rw [estGet_runReconcile, estGet_runReconcile]
    exact List.Perm.foldl_eq (hperm.map _) _
  · intro m cid r u v h
    refine ⟨?_, min_le_left _ _⟩
    show estGet (get_device_best_startup_estimate m cid (r - u)).2 cid = _
    rw [gdbse_get, h]
    rfl
  · intro m cid r u
    constructor
    · show estGet (get_device_best_startup_estimate m cid (r - u)).2 cid = _
      rw [gdbse_get]
    · show (get_device_best_startup_estimate m cid (r - u)).1 + u = _
      rw [gdbse_fst]

theorem C1_witness :
    estGet (runReconcile [] (Json.num 100) [(10, 3), (5, 1)]) (Json.num 100) =
      some 4 := by
  have h := C1_reconciler_running_min.1 [] (Json.num 100) (10, 3) [(5, 1)] rfl
  simpa using h

/-- C10: For every reconcile call, the returned `takenAt` is at most that
sample's `receivedAt` (the stored estimate is at most
`receivedAt − reportedUptime`), and for the first sample ever seen for a
controller `takenAt` equals `receivedAt` exactly. -/
theorem C10_taken_at_bounds (m : EstMap) (cid : Json) (r u : Int) :
    (reconcile m cid r u).1 ≤ r ∧
    (estGet m cid = none → (reconcile m cid r u).1 = r) := by
  have hfst : (reconcile m cid r u).1 =
      estStep (estGet m cid) (r - u) + u := by
    show (get_device_best_startup_estimate m cid (r - u)).1 + u = _
    rw [gdbse_fst]
  constructor
  · rw [hfst]
    cases h : estGet m cid with
    | none => simp [estStep]
    | some v =>
      simp only [estStep]
      have := min_le_right v (r - u)
      omega
  · intro h
    rw [hfst, h]
    simp [estStep]

theorem C10_witness : (reconcile [] (Json.num 1) 100 7).1 = 100 :=
  (C10_taken_at_bounds [] (Json.num 1) 100 7).2 rfl

/-- C2 counterexample: the single chunk `b"\xff\r\n"` contains one delimiter,
but the framer run raises (`bytes.decode` fails on the completed fragment
`b"\xff"`) instead of yielding one line — and the fragment's bytes are gone
(the buffer was already reset to the bytes after the delimiter), so the call
yields no lines at all rather than one line per delimiter. -/
theorem C2_counterexample :
    (splitCRLF ([[255, 13, 10]] : List (List ℕ)).flatten).length - 1 = 1 ∧
    runFramer [] [[255, 13, 10]] = none := by
  constructor
  · rfl
  · rfl

/-- C2 (amended): provided every completed fragment of the concatenated
stream decodes successfully, successive `append_socket_data` calls yield
exactly the decoded fragments before each delimiter, in order (`L`, one per
delimiter), the retained buffer is exactly the bytes after the last
delimiter, and the outcome depends only on the concatenation of the chunks,
not on the chunk boundaries. -/
theorem C2_framer_characterisation (cs cs' : List (List ℕ)) (L : List (List ℕ))
    (hflat : cs.flatten = cs'.flatten)
    (h : (splitCRLF cs.flatten).dropLast.mapM utf8Decode = some L) :
    runFramer [] cs = some (L, (splitCRLF cs.flatten).getLastD []) ∧
    runFramer [] cs' = runFramer [] cs ∧
    L.length = (splitCRLF cs.flatten).length - 1 := by
  have heq := runFramer_eq cs [] rfl
  have heq' := runFramer_eq cs' [] rfl
  rw [List.nil_append] at heq heq'
  refine ⟨?_, ?_, ?_⟩
  · rw [heq, h]
    rfl
  · rw [heq, heq', hflat]
  · have hlen := mapM_length_option utf8Decode _ _ h
    rw [hlen, List.length_dropLast]

theorem C2_witness :
    runFramer [] [[97, 13], [10, 98, 13, 10, 99]] =
      some ([[97], [98]], [99]) ∧
    ([[97], [98]] : List (List ℕ)).length =
      (splitCRLF ([[97, 13], [10, 98, 13, 10, 99]] : List (List ℕ)).flatten).length - 1 := by
  have h := C2_framer_characterisation [[97, 13], [10, 98, 13, 10, 99]]
    [[97, 13, 10, 98, 13, 10, 99]] [[97], [98]] rfl rfl
  exact ⟨h.1, h.2.2⟩

/-- C8 counterexample: one `append_socket_data` call whose input completes
the undecodable line `b"\xff"` and the decodable line `b"a"`: the decode
failure is not a per-line error — the whole call fails (`none`, the raised
`UnicodeDecodeError`), and the other completed line of the same call (`"a"`,
which decodes fine) is not produced either. -/
theorem C8_counterexample :
    append_socket_data [] [255, 13, 10, 97, 13, 10] = (none, []) ∧
    utf8Decode [97] = some [97] := by
  constructor
  · rfl
  · rfl

/-- C8 (amended): a text-decoding failure on any completed fragment makes
the entire `append_socket_data` call fail (the `UnicodeDecodeError` from
`bytes.decode` propagates out of the call, producing no lines at all), while
the buffer has already been updated to the bytes after the last delimiter. -/
theorem C8_decode_failure_fatal (buffer data frag : List ℕ)
    (hmem : frag ∈ (splitCRLF (buffer ++ data)).dropLast)
    (hbad : utf8Decode frag = none) :
    append_socket_data buffer data =
      (none, (splitCRLF (buffer ++ data)).getLastD []) := by
  show ((splitCRLF (buffer ++ data)).dropLast.mapM utf8Decode,
    (splitCRLF (buffer ++ data)).getLastD []) = _
  rw [mapM_option_none utf8Decode _ frag hmem hbad]

theorem C8_witness :
    append_socket_data [] [255, 13, 10, 97, 13, 10] =
      (none, (splitCRLF ([] ++ [255, 13, 10, 97, 13, 10])).getLastD []) :=
  C8_decode_failure_fatal [] [255, 13, 10, 97, 13, 10] [255] (by decide) (by decide)

/-- C3 counterexample: receiving the line at wall-clock time
`T = 5000000 µs` as the first sample for controller 100 produces
`taken_at = T` (the first sample seeds the estimate with `T − 1000 ms`, and
`taken_at = estimate + 1000 ms` cancels back to `T`), not `T − 1000 ms` as
claimed — and `T − 1000 ms ≠ T`. -/
theorem C3_counterexample :
    (parse_device_line [] (str2cp "SOIL-1") c3line 5000000).1 =
      .ok [MeasurementRecord.mk (Json.num 100) (Json.num 1) (str2cp "SOIL-1")
        (Json.num 1) (Json.num 70) 5000000 5000000] ∧
    (5000000 : Int) - 1000 * 1000 ≠ 5000000 := by
  constructor
  · rfl
  · decide

/-- C3 (amended): when the device's line is received at wall-clock time `T`
as the first sample ever seen for controller 100, the produced measurement
record has `moisture = 70` and `taken_at = T` (the seeded estimate
`T − 1000 ms` plus the reported uptime `1000 ms`), and the stored estimate
for controller 100 becomes `T − 1000 ms`. -/
theorem C3_first_sample (name : List ℕ) (T : Int) :
    parse_device_line [] name c3line T =
      (.ok [MeasurementRecord.mk (Json.num 100) (Json.num 1) name (Json.num 1)
        (Json.num 70) T (T - 1000000 + 1000000)],
       [(Json.num 100, T - 1000000)]) ∧
    T - 1000000 + 1000000 = T := by
  constructor
  · rfl
  · ring

/-- C4: Under the registry invariant, `receive_data` calls `receive_data`
on (exactly) every device connected at the start of the pass and records the
wall-clock stamp of the call in the returned mapping; the removal of
disconnected devices happens only after all results are collected (the
returned mapping is computed from the pre-pass state); and when the pass
returns, the registry holds exactly the devices whose `connected` flag is
still true — so no remaining device has `connected = false`. -/
theorem C4_receive_all (reg : Reg) (conn : Device → Bool)
    (outLines : Device → List (List ℕ)) (outConn : Device → Bool)
    (now : Device → Int) (hinv : RegInv reg) :
    ∃ data reg2 conn2,
      receive_data_pass reg conn outLines outConn now =
        some (data, reg2, conn2) ∧
      data = (reg.devices.filter (fun d => conn d)).map
        (fun d => (d, (outLines d, now d))) ∧
      (∀ d ∈ reg.devices, conn d = true → (d, (outLines d, now d)) ∈ data) ∧
      reg2.devices = reg.devices.filter (fun d => conn2 d) ∧
      (∀ d ∈ reg2.devices, conn2 d = true) ∧
      RegInv reg2 := by
  obtain ⟨reg2, hpass, hinv2, hdev, hconn⟩ :=
    receive_data_pass_eq reg conn outLines outConn now hinv
  refine ⟨_, reg2, _, hpass, rfl, ?_, hdev, hconn, hinv2⟩
  intro d hd hcd
  exact List.mem_map.mpr ⟨d, List.mem_filter.mpr ⟨hd, hcd⟩, rfl⟩

theorem C4_witness :
    ∃ data reg2 conn2,
      receive_data_pass (emptyReg.add ⟨1, str2cp "AA", str2cp "SOIL-1"⟩)
        (fun _ => true) (fun _ => [[97]]) (fun _ => false) (fun _ => 5) =
        some (data, reg2, conn2) ∧
      data = ((emptyReg.add ⟨1, str2cp "AA", str2cp "SOIL-1"⟩).devices.filter
        (fun _ => true)).map (fun d => (d, ([[97]], 5))) ∧
      (∀ d ∈ (emptyReg.add ⟨1, str2cp "AA", str2cp "SOIL-1"⟩).devices,
        true = true → (d, ([[97]], 5)) ∈ data) ∧
      reg2.devices = (emptyReg.add ⟨1, str2cp "AA", str2cp "SOIL-1"⟩).devices.filter
        (fun d => conn2 d) ∧
      (∀ d ∈ reg2.devices, conn2 d = true) ∧
      RegInv reg2 :=
  C4_receive_all (emptyReg.add ⟨1, str2cp "AA", str2cp "SOIL-1"⟩)
    (fun _ => true) (fun _ => [[97]]) (fun _ => false) (fun _ => 5)
    (RegInv.add_fresh RegInv_empty (fun e he => absurd he (by simp [emptyReg])))

/-- C5: Under the registry invariant (with the data model's uniqueness of
socket and address for the added device), after `add(d)` followed by
`remove(d)` the primary set and all three indices contain no entry for `d`;
moreover `add` and `remove` each preserve the invariant that every member
appears in the three indices under its current socket, address and name —
removal updates all indices in one step (no partial-index state is
observable between registry operations). -/
theorem C5_registry_add_remove :
    (∀ (reg : Reg) (d : Device), RegInv reg → FreshFor reg d →
      ∃ reg', (reg.add d).remove d = some reg' ∧
        d ∉ reg'.devices ∧
        (∀ k, reg'.by_socket k ≠ some d) ∧
        (∀ k, reg'.by_address k ≠ some d) ∧
        (∀ k s, reg'.by_name k = some s → d ∉ s) ∧
        RegInv reg')
    ∧ (∀ (reg : Reg) (d : Device), RegInv reg → FreshFor reg d →
        RegInv (reg.add d))
    ∧ (∀ (reg : Reg) (d : Device) (reg' : Reg), RegInv reg →
        d ∈ reg.devices → reg.remove d = some reg' → RegInv reg') := by
  refine ⟨?_, ?_, ?_⟩
  · intro reg d hinv hfresh
    have hinv2 := RegInv.add_fresh hinv hfresh
    have hd := Reg.mem_add_self reg d
    obtain ⟨s, hs, hds, heq⟩ := Reg.remove_eq (reg.add d) d hinv2 hd
    obtain ⟨hinv', hdev', habs1, habs2, habs3⟩ :=
      RegInv.remove_of_mem hinv2 hd heq
    refine ⟨_, heq, ?_, habs1, habs2, habs3, hinv'⟩
    rw [hdev']
    intro hcon
    exact ((hinv2.nodup.mem_erase_iff).mp hcon).1 rfl
  · intro reg d hinv hfresh
    exact RegInv.add_fresh hinv hfresh
  · intro reg d reg' hinv hd heq
    exact (RegInv.remove_of_mem hinv hd heq).1

theorem C5_witness :
    ∃ reg', (emptyReg.add ⟨1, str2cp "AA", str2cp "SOIL-1"⟩).remove
        ⟨1, str2cp "AA", str2cp "SOIL-1"⟩ = some reg' ∧
      (⟨1, str2cp "AA", str2cp "SOIL-1"⟩ : Device) ∉ reg'.devices ∧
      (∀ k, reg'.by_socket k ≠ some ⟨1, str2cp "AA", str2cp "SOIL-1"⟩) ∧
      (∀ k, reg'.by_address k ≠ some ⟨1, str2cp "AA", str2cp "SOIL-1"⟩) ∧
      (∀ k s, reg'.by_name k = some s →
        (⟨1, str2cp "AA", str2cp "SOIL-1"⟩ : Device) ∉ s) ∧
      RegInv reg' :=
  C5_registry_add_remove.1 emptyReg ⟨1, str2cp "AA", str2cp "SOIL-1"⟩
    RegInv_empty (fun e he => absurd he (by simp [emptyReg]))

/-- C6: For every filtered `(address, name)` pair the retry loop makes at
most `maxRetries` attempts and stops at the first success; a host-down
connection error consumes one unit of the per-device budget; a pair whose
first `maxRetries − 1` attempts are host-down and whose final attempt
succeeds is included in the devices returned by `create_connections` as
connected, consuming exactly `maxRetries` attempts; and a transport error
other than host-down is fatal for the whole call. -/
theorem C6_retry_budget :
    (∀ (attempts : ℕ → ConnectOutcome) (retries k : ℕ),
      attemptsUsed attempts retries k ≤ retries)
    ∧ (∀ (attempts : ℕ → ConnectOutcome) (address name : List ℕ)
        (retries j s : ℕ), j < retries →
        (∀ i, i < j → attempts i = .hostDown) → attempts j = .ok s →
        tryConnectPair attempts address name retries 0 =
          .ok (some (⟨s, address, name⟩, true)) ∧
        attemptsUsed attempts retries 0 = j + 1)
    ∧ (∀ (oracle : ℕ → ℕ → ConnectOutcome) (address name : List ℕ)
        (rest : List (List ℕ × List ℕ)) (i retries s : ℕ)
        (ds : List (Device × Bool)), 0 < retries →
        (∀ k, k < retries - 1 → oracle i k = .hostDown) →
        oracle i (retries - 1) = .ok s →
        create_connections oracle retries rest (i + 1) = .ok ds →
        create_connections oracle retries ((address, name) :: rest) i =
          .ok ((⟨s, address, name⟩, true) :: ds) ∧
        attemptsUsed (oracle i) retries 0 = retries)
    ∧ (∀ (oracle : ℕ → ℕ → ConnectOutcome) (address name : List ℕ)
        (rest : List (List ℕ × List ℕ)) (i retries j : ℕ), j < retries →
        (∀ k, k < j → oracle i k = .hostDown) → oracle i j = .fatal →
        create_connections oracle retries ((address, name) :: rest) i =
          .error ()) := by
  refine ⟨?_, ?_, ?_, ?_⟩
  · intro attempts retries k
    exact attemptsUsed_le attempts retries k
  · intro attempts address name retries j s hj hdown hok
    exact tryConnectPair_first_success attempts address name retries 0 j s hj
      (fun i hi => by simpa using hdown i hi) (by simpa using hok)
  · intro oracle address name rest i retries s ds hpos hdown hok hrest
    obtain ⟨h1, h2⟩ := tryConnectPair_first_success (oracle i) address name
      retries 0 (retries - 1) s (by omega)
      (fun k hk => by simpa using hdown k hk) (by simpa using hok)
    refine ⟨?_, by omega⟩
    exact create_connections_cons_ok oracle retries address name rest i _ ds h1 hrest
  · intro oracle address name rest i retries j hj hdown hfatal
    exact create_connections_fatal_head oracle retries address name rest i
      (tryConnectPair_fatal (oracle i) address name retries 0 j hj
        (fun k hk => by simpa using hdown k hk) (by simpa using hfatal))

theorem C6_witness :
    create_connections
      (fun _ k => if k < 2 then ConnectOutcome.hostDown else ConnectOutcome.ok 42)
      3 [(str2cp "AA", str2cp "SOIL-1")] 0 =
      .ok [(⟨42, str2cp "AA", str2cp "SOIL-1"⟩, true)] ∧
    attemptsUsed
      (fun k => if k < 2 then ConnectOutcome.hostDown else ConnectOutcome.ok 42)
      3 0 = 3 :=
  C6_retry_budget.2.2.1
    (fun _ k => if k < 2 then ConnectOutcome.hostDown else ConnectOutcome.ok 42)
    (str2cp "AA") (str2cp "SOIL-1") [] 0 3 42 [] (by omega)
    (fun k hk => by
      match k, hk with
      | 0, _ => rfl
      | 1, _ => rfl)
    rfl rfl

/-- C9 counterexample: when the query to the pairing collaborator fails
(`get_paired_devices` logs the `BluetoothctlError` and returns `None`),
`find_and_connect` does not return the empty device sequence — it raises
(`sorted(None, ...)` throws `TypeError`, modelled by `.error ()`). -/
theorem C9_counterexample :
    bd_find_and_connect none [] 5 (fun _ _ => ConnectOutcome.hostDown) =
      .error () ∧
    (Except.error () : Except Unit (List (Device × Bool))) ≠ .ok [] := by
  constructor
  · rfl
  · intro h
    exact Except.noConfusion h

/-- C9 (amended): when the pairing-collaborator query fails, the failure is
logged and the resulting `TypeError` propagates out of `find_and_connect`
(`.error ()`); it is the discovery-thread loop that catches it, so the
discovery cycle publishes zero new devices rather than `find_and_connect`
returning an empty sequence. -/
theorem C9_collaborator_failure (ignore_addresses : List (List ℕ))
    (retries : ℕ) (oracle : ℕ → ℕ → ConnectOutcome) :
    bd_find_and_connect none ignore_addresses retries oracle = .error () ∧
    discovery_cycle none ignore_addresses retries oracle = [] := by
  constructor
  · rfl
  · rfl

theorem parseEnvelope_sound (line ds payload : List ℕ)
    (h : parseEnvelope line = some (ds, payload)) :
    stripFinalNewline line =
      91 :: (ds ++ 91 :: (payload ++ 93 :: (ds ++ [93]))) ∧
    ds ≠ [] ∧ ds.all (fun c => isDigit c) = true ∧
    payload.contains 10 = false := by
  unfold parseEnvelope at h
  split at h
  next b rest hs =>
    split at h
    next hb =>
      split at h
      next hempty => exact absurd h (by simp)
      next ds' c rest3 htake hdrop =>
        split at h
        next hc =>
          split at h
          next hcond =>
            split at h
            next hcont => exact absurd h (by simp)
            next hcont =>
              injection h with h
              injection h with h1 h2
              rw [h1] at hcond hcont h2
              rw [h2] at hcont
              have hrest : rest = ds ++ (c :: rest3) := by
                conv_lhs => rw [← List.takeWhile_append_dropWhile
                  (p := fun x => isDigit x) (l := rest)]
                rw [h1, htake]
              have hrest3 : rest3 = payload ++ 93 :: (ds ++ [93]) := by
                conv_lhs => rw [← List.take_append_drop
                  (rest3.length - (93 :: (ds ++ [93])).length) rest3]
                rw [h2, hcond.2]
              refine ⟨?_, ?_, ?_, ?_⟩
              · rw [hs, hb, hrest, hc, hrest3]
              · intro hcon
                rw [← h1] at hcon
                exact hdrop hcon
              · rw [← h1]
                refine List.all_eq_true.mpr ?_
                intro x hx
                exact List.mem_takeWhile_imp hx
              · simpa using hcont
          next hcond => exact absurd h (by simp)
        next hc => exact absurd h (by simp)
      next => exact absurd h (by simp)
    next hb => exact absurd h (by simp)
  next => exact absurd h (by simp)

theorem parseEnvelope_complete (ds payload : List ℕ) (hne : ds ≠ [])
    (hdig : ds.all (fun c => isDigit c) = true)
    (hp : payload.contains 10 = false) :
    parseEnvelope (91 :: (ds ++ 91 :: (payload ++ 93 :: (ds ++ [93])))) =
      some (ds, payload) := by
  have hstrip : stripFinalNewline
      (91 :: (ds ++ 91 :: (payload ++ 93 :: (ds ++ [93])))) =
      91 :: (ds ++ 91 :: (payload ++ 93 :: (ds ++ [93]))) := by
    unfold stripFinalNewline
    rw [if_neg]
    intro hcon
    have hlast : (91 :: (ds ++ 91 :: (payload ++ 93 :: (ds ++ [93])))).getLast? =
        some 93 := by
      rw [show 91 :: (ds ++ 91 :: (payload ++ 93 :: (ds ++ [93]))) =
        (91 :: (ds ++ 91 :: (payload ++ 93 :: ds))) ++ [93] by simp]
      exact List.getLast?_concat _
    rw [hlast] at hcon
    injection hcon with hcon
    exact absurd hcon (by decide)
  obtain ⟨ht, hd⟩ := takeWhile_digits (fun x => isDigit x) ds 91
    (payload ++ 93 :: (ds ++ [93]))
    (fun d hdm => List.all_eq_true.mp hdig d hdm) (by decide)
  match ds, hne, hdig, ht, hd with
  | d0 :: ds', _, hdig, ht, hd =>
    unfold parseEnvelope
    rw [hstrip]
    dsimp only
    rw [if_pos rfl, ht, hd]
    dsimp only
    rw [if_pos rfl]
    have hlen : (payload ++ 93 :: ((d0 :: ds') ++ [93])).length -
        (93 :: ((d0 :: ds') ++ [93])).length = payload.length := by
      simp
    rw [if_pos ⟨by simp, by rw [hlen]; exact List.drop_left _ _⟩]
    rw [hlen, List.take_left]
    rw [if_neg (by rw [hp]; simp)]

/-- C7: The envelope parser accepts exactly the lines of the form
`[id[payload]id]` with the closing decimal id equal to the opening id
(soundness: every accepted line decomposes that way with a nonempty digit
id; completeness: every such line is accepted with that id and payload);
the line `[7[{"a":1}]7]` parses with payload `{"a":1}`, the mismatched-id
line `[7[{"a":1}]8]` is a parse error, and a line with no brackets is a
parse error. -/
theorem C7_envelope :
    (∀ line ds payload, parseEnvelope line = some (ds, payload) →
      stripFinalNewline line =
        91 :: (ds ++ 91 :: (payload ++ 93 :: (ds ++ [93]))) ∧
      ds ≠ [] ∧ ds.all (fun c => isDigit c) = true)
    ∧ (∀ ds payload, ds ≠ [] → ds.all (fun c => isDigit c) = true →
        payload.contains 10 = false →
        parseEnvelope (91 :: (ds ++ 91 :: (payload ++ 93 :: (ds ++ [93])))) =
          some (ds, payload))
    ∧ parseEnvelope c7line_ok = some (str2cp "7", c7payload)
    ∧ parseEnvelope c7line_mismatch = none
    ∧ parseEnvelope c7line_nobrackets = none := by
  refine ⟨?_, parseEnvelope_complete, ?_, ?_, ?_⟩
  · intro line ds payload h
    have hsound := parseEnvelope_sound line ds payload h
    exact ⟨hsound.1, hsound.2.1, hsound.2.2.1⟩
  · rfl
  · rfl
  · rfl

theorem C7_witness :
    stripFinalNewline c7line_ok =
      91 :: (str2cp "7" ++ 91 :: (c7payload ++ 93 :: (str2cp "7" ++ [93]))) ∧
    parseEnvelope
        (91 :: (str2cp "7" ++ 91 :: (c7payload ++ 93 :: (str2cp "7" ++ [93])))) =
      some (str2cp "7", c7payload) :=
  ⟨(C7_envelope.1 c7line_ok (str2cp "7") c7payload (by rfl)).1,
   C7_envelope.2.1 (str2cp "7") c7payload (by decide) (by rfl) (by rfl)⟩
